import Mathlib

/-!
Verification of the checkout backend's transaction core: the inventory
ledger, the checkout session store, the idempotency gate and the order
service, embedded shallowly from the TypeScript sources
(`src/rest/nodejs/src/data/db.ts`, `src/rest/nodejs/src/data/transactions.ts`,
`src/rest/nodejs/src/api/order.ts`).

The SQLite tables are embedded as lists of rows; a SQL `UPDATE ... WHERE`
maps over the rows, touching exactly those matching the `WHERE` clause, and
`rowsAffected` counts the matching rows.  The `PRIMARY KEY` constraint of a
table is expressed, where a proof needs it, by the hypothesis that the keys
of the row list are pairwise distinct.
-/

namespace UCP

/-- A row of the `inventory` table: `product_id TEXT PRIMARY KEY` paired with
`quantity INTEGER`. -/
abbrev InventoryTable := List (String × Int)

/-- Embeds `getInventory` (db.ts):
`SELECT quantity FROM inventory WHERE product_id = ?`; returns the quantity
of the first matching row, or `none` when no row matches. -/
def getInventory (t : InventoryTable) (productId : String) : Option Int :=
  (t.find? (fun r => r.1 == productId)).map (fun r => r.2)

/-- Embeds `reserveStock` (db.ts):
`UPDATE inventory SET quantity = quantity - ? WHERE product_id = ? AND quantity >= ?`,
returning `rowsAffected > 0`.  Every row matching the `WHERE` clause is
decremented; the returned flag is true exactly when at least one row matched
(`rowsAffected`, the second component, is that count compared with zero). -/
def reserveStock (t : InventoryTable) (productId : String) (quantity : Int) :
    InventoryTable × Bool :=
  (t.map (fun r =>
      if r.1 == productId && decide (quantity ≤ r.2) then (r.1, r.2 - quantity) else r),
   decide (0 < t.countP (fun r => r.1 == productId && decide (quantity ≤ r.2))))

/-- Embeds `releaseStock` (db.ts):
`UPDATE inventory SET quantity = quantity + ? WHERE product_id = ?`;
unconditional increment of every row of the product. -/
def releaseStock (t : InventoryTable) (productId : String) (quantity : Int) :
    InventoryTable :=
  t.map (fun r => if r.1 == productId then (r.1, r.2 + quantity) else r)

/-- The `PRIMARY KEY` constraint on `inventory.product_id`: the keys of the
row list are pairwise distinct. -/
def keysNodup (t : InventoryTable) : Prop := (t.map Prod.fst).Nodup

/-- `find?` on a key predicate commutes with a row map that preserves keys. -/
theorem find?_key_map (t : InventoryTable) (p : String)
    (g : String × Int → String × Int) (hg : ∀ r, (g r).1 = r.1) :
    (t.map g).find? (fun r => r.1 == p) = (t.find? (fun r => r.1 == p)).map g := by
  have hcomp : ((fun r : String × Int => r.1 == p) ∘ g) = fun r : String × Int => r.1 == p := by
    funext r
    simp [Function.comp, hg r]
  rw [List.find?_map, hcomp]

/-- With distinct keys, the row found for key `p` is the only row with key `p`. -/
theorem eq_of_mem_of_keysNodup (t : InventoryTable) (p : String) (r₀ : String × Int)
    (hnd : keysNodup t) (h : t.find? (fun r => r.1 == p) = some r₀) :
    ∀ r ∈ t, r.1 = p → r = r₀ := by
  induction t with
  | nil => intro r hr; cases hr
  | cons hd tl ih =>
    have hnd' : keysNodup tl := (List.nodup_cons.mp hnd).2
    have hhd : hd.1 ∉ tl.map Prod.fst := (List.nodup_cons.mp hnd).1
    intro r hr hrp
    rcases List.find?_cons_eq_some.mp h with ⟨hp, heq⟩ | ⟨hp, htl⟩
    · rcases List.mem_cons.mp hr with rfl | hrtl
      · exact heq
      · exfalso
        apply hhd
        have hhdp : hd.1 = p := by simpa using hp
        rw [hhdp, ← hrp]
        exact List.mem_map_of_mem Prod.fst hrtl
    · rcases List.mem_cons.mp hr with rfl | hrtl
      · exact absurd (by simpa using hrp) (by simpa using hp)
      · exact ih hnd' htl r hrtl hrp

/-- Looking up a product after `reserveStock`: the recorded quantity is
decremented exactly when the old quantity covered the request. -/
theorem getInventory_reserveStock (t : InventoryTable) (p : String) (q a : Int)
    (h : getInventory t p = some a) :
    getInventory (reserveStock t p q).1 p = some (if q ≤ a then a - q else a) := by
  unfold getInventory at h ⊢
  unfold reserveStock
  dsimp only
  rw [find?_key_map]
  · obtain ⟨r₀, hfind, hval⟩ : ∃ r₀, t.find? (fun r => r.1 == p) = some r₀ ∧ r₀.2 = a := by
      cases hf : t.find? (fun r => r.1 == p) with
      | none => rw [hf] at h; simp at h
      | some r₀ => rw [hf] at h; exact ⟨r₀, rfl, by simpa using h⟩
    have hkey := List.find?_some hfind
    have hkeq : r₀.1 = p := by simpa using hkey
    rw [hfind]
    by_cases hq : q ≤ a
    · rw [if_pos hq]
      simp [hkey, hkeq, hval, hq]
    · rw [if_neg hq]
      simp [hkey, hkeq, hval, hq]
  · intro r
    by_cases hc : (r.1 == p && decide (q ≤ r.2)) = true
    · simp [hc]
    · simp [hc]

/-- Looking up a product after `releaseStock`: the recorded quantity is
incremented unconditionally. -/
theorem getInventory_releaseStock (t : InventoryTable) (p : String) (q a : Int)
    (h : getInventory t p = some a) :
    getInventory (releaseStock t p q) p = some (a + q) := by
  unfold getInventory at h ⊢
  unfold releaseStock
  rw [find?_key_map]
  · obtain ⟨r₀, hfind, hval⟩ : ∃ r₀, t.find? (fun r => r.1 == p) = some r₀ ∧ r₀.2 = a := by
      cases hf : t.find? (fun r => r.1 == p) with
      | none => rw [hf] at h; simp at h
      | some r₀ => rw [hf] at h; exact ⟨r₀, rfl, by simpa using h⟩
    have hkey := List.find?_some hfind
    have hkeq : r₀.1 = p := by simpa using hkey
    rw [hfind]
    simp [hkey, hkeq, hval]
  · intro r
    by_cases hc : (r.1 == p) = true
    · simp [hc]
    · simp [hc]

/-- When the recorded quantity covers the request, `reserveStock` returns true. -/
theorem reserveStock_flag_true (t : InventoryTable) (p : String) (q a : Int)
    (h : getInventory t p = some a) (hq : q ≤ a) :
    (reserveStock t p q).2 = true := by
  unfold getInventory at h
  obtain ⟨r₀, hfind, hval⟩ : ∃ r₀, t.find? (fun r => r.1 == p) = some r₀ ∧ r₀.2 = a := by
    cases hf : t.find? (fun r => r.1 == p) with
    | none => rw [hf] at h; simp at h
    | some r₀ => rw [hf] at h; exact ⟨r₀, rfl, by simpa using h⟩
  have hkey := List.find?_some hfind
  have hmem : r₀ ∈ t := List.mem_of_find?_eq_some hfind
  unfold reserveStock
  simp only [decide_eq_true_eq]
  rw [List.countP_pos_iff]
  exact ⟨r₀, hmem, by simp [hkey, hval, hq]⟩

/-- With distinct keys, when the recorded quantity is short, `reserveStock`
returns false and leaves the table unchanged (never clamped, nothing applied). -/
theorem reserveStock_insufficient (t : InventoryTable) (p : String) (q a : Int)
    (hnd : keysNodup t) (h : getInventory t p = some a) (hq : a < q) :
    reserveStock t p q = (t, false) := by
  unfold getInventory at h
  obtain ⟨r₀, hfind, hval⟩ : ∃ r₀, t.find? (fun r => r.1 == p) = some r₀ ∧ r₀.2 = a := by
    cases hf : t.find? (fun r => r.1 == p) with
    | none => rw [hf] at h; simp at h
    | some r₀ => rw [hf] at h; exact ⟨r₀, rfl, by simpa using h⟩
  have honly := eq_of_mem_of_keysNodup t p r₀ hnd hfind
  have hpred : ∀ r ∈ t, (r.1 == p && decide (q ≤ r.2)) = false := by
    intro r hr
    by_cases hrp : r.1 = p
    · have hre : r = r₀ := honly r hr hrp
      have hlt : ¬ q ≤ r.2 := by rw [hre, hval]; omega
      simp [hlt]
    · simp [hrp]
  unfold reserveStock
  simp only [Prod.mk.injEq]
  constructor
  · rw [List.map_congr_left (fun r hr => by rw [if_neg]; simp [hpred r hr]), List.map_id']
  · simp only [decide_eq_false_iff_not, not_lt, Nat.le_zero, List.countP_eq_zero]
    intro r hr
    simp [hpred r hr]

/-- When no row of the product exists, `reserveStock` returns false and leaves
the table unchanged, for every requested quantity. -/
theorem reserveStock_missing (t : InventoryTable) (p : String) (q : Int)
    (h : getInventory t p = none) :
    reserveStock t p q = (t, false) := by
  unfold getInventory at h
  have hfind : t.find? (fun r => r.1 == p) = none := by
    cases hf : t.find? (fun r => r.1 == p) with
    | none => rfl
    | some r₀ => rw [hf] at h; simp at h
  have hpred : ∀ r ∈ t, (r.1 == p && decide (q ≤ r.2)) = false := by
    intro r hr
    have hk := List.find?_eq_none.mp hfind r hr
    simp at hk
    simp [hk]
  unfold reserveStock
  simp only [Prod.mk.injEq]
  constructor
  · rw [List.map_congr_left (fun r hr => by rw [if_neg]; simp [hpred r hr]), List.map_id']
  · simp only [decide_eq_false_iff_not, not_lt, Nat.le_zero, List.countP_eq_zero]
    intro r hr
    simp [hpred r hr]

/-- An operation against the inventory ledger. -/
inductive StockOp where
  | reserve (productId : String) (quantity : Int)
  | release (productId : String) (quantity : Int)

/-- The requested quantity of a ledger operation. -/
def StockOp.qty : StockOp → Int
  | .reserve _ q => q
  | .release _ q => q

/-- Applying one ledger operation to the inventory table. -/
def applyOp (t : InventoryTable) : StockOp → InventoryTable
  | .reserve p q => (reserveStock t p q).1
  | .release p q => releaseStock t p q

/-- Running a sequence of ledger operations, front to back. -/
def runOps (t : InventoryTable) (ops : List StockOp) : InventoryTable :=
  ops.foldl applyOp t

/-- Every recorded quantity in the table is non-negative. -/
def nonneg (t : InventoryTable) : Prop := ∀ r ∈ t, 0 ≤ r.2

/-- A single ledger operation with non-negative request preserves
non-negativity of every recorded quantity. -/
theorem nonneg_applyOp (t : InventoryTable) (op : StockOp)
    (hq : 0 ≤ op.qty) (ht : nonneg t) : nonneg (applyOp t op) := by
  cases op with
  | reserve p q =>
    intro r hr
    unfold applyOp reserveStock at hr
    dsimp only at hr
    rcases List.mem_map.mp hr with ⟨r₀, hr₀, rfl⟩
    by_cases hc : (r₀.1 == p && decide (q ≤ r₀.2)) = true
    · rw [if_pos hc]
      have hq2 : q ≤ r₀.2 := by
        simp only [Bool.and_eq_true, decide_eq_true_eq] at hc
        exact hc.2
      dsimp only
      omega
    · rw [if_neg hc]
      exact ht r₀ hr₀
  | release p q =>
    simp only [StockOp.qty] at hq
    intro r hr
    unfold applyOp releaseStock at hr
    rcases List.mem_map.mp hr with ⟨r₀, hr₀, rfl⟩
    have h0 := ht r₀ hr₀
    by_cases hc : (r₀.1 == p) = true
    · rw [if_pos hc]
      dsimp only
      omega
    · rw [if_neg hc]
      exact h0

/-- Non-negativity holds after every prefix of a run of ledger operations
whose requests are all non-negative. -/
theorem nonneg_runOps (t : InventoryTable) (ops : List StockOp)
    (hops : ∀ op ∈ ops, 0 ≤ op.qty) (ht : nonneg t) :
    ∀ n, nonneg (runOps t (ops.take n)) := by
  induction ops generalizing t with
  | nil => intro n; simpa [runOps] using ht
  | cons op rest ih =>
    intro n
    cases n with
    | zero => simpa [runOps] using ht
    | succ m =>
      have h1 : nonneg (applyOp t op) := nonneg_applyOp t op (hops op (by simp)) ht
      have h2 := ih (applyOp t op) (fun o ho => hops o (by simp [ho])) h1 m
      simpa [runOps] using h2

/-- C1: for a product with recorded quantity `a` and a request `0 ≤ q`,
`reserveStock` returns true and records `a - q` when `a ≥ q`, and returns
false leaving `a` unchanged when `a < q`; concretely, from quantity 5 a
reserve of 3 succeeds leaving 2, a second reserve of 3 fails leaving 2, and
a release of 3 restores 5. -/
theorem claim_C1 (t : InventoryTable) (p : String) (a q : Int)
    (hnd : keysNodup t) (ha : getInventory t p = some a) (hq : 0 ≤ q) :
    (q ≤ a →
      (reserveStock t p q).2 = true ∧
      getInventory (reserveStock t p q).1 p = some (a - q)) ∧
    (a < q →
      (reserveStock t p q).2 = false ∧
      getInventory (reserveStock t p q).1 p = some a) ∧
    ((reserveStock [("P1", (5 : Int))] "P1" 3).2 = true ∧
      getInventory (reserveStock [("P1", (5 : Int))] "P1" 3).1 "P1" = some 2 ∧
      (reserveStock (reserveStock [("P1", (5 : Int))] "P1" 3).1 "P1" 3).2 = false ∧
      getInventory (reserveStock (reserveStock [("P1", (5 : Int))] "P1" 3).1 "P1" 3).1 "P1"
        = some 2 ∧
      getInventory
        (releaseStock (reserveStock (reserveStock [("P1", (5 : Int))] "P1" 3).1 "P1" 3).1
          "P1" 3) "P1" = some 5) := by
  refine ⟨?_, ?_, by decide⟩
  · intro hqa
    refine ⟨reserveStock_flag_true t p q a ha hqa, ?_⟩
    rw [getInventory_reserveStock t p q a ha, if_pos hqa]
  · intro haq
    rw [reserveStock_insufficient t p q a hnd ha haq]
    exact ⟨rfl, ha⟩

/-- Witness for C1 at the concrete state `P1 ↦ 5` with request 3. -/
theorem claim_C1_witness :
    keysNodup [("P1", (5 : Int))] ∧
    getInventory [("P1", (5 : Int))] "P1" = some 5 ∧
    (0 : Int) ≤ 3 ∧
    ((reserveStock [("P1", (5 : Int))] "P1" 3).2 = true ∧
      getInventory (reserveStock [("P1", (5 : Int))] "P1" 3).1 "P1" = some 2) := by
  refine ⟨by unfold keysNodup; decide, by decide, by decide, ?_⟩
  exact (claim_C1 [("P1", (5 : Int))] "P1" 5 3 (by unfold keysNodup; decide) (by decide) (by decide)).1
    (by decide)

/-- C2: starting from a table of non-negative quantities, every prefix of a
run of reserve/release operations with non-negative requests leaves every
recorded quantity non-negative; and a reservation that would drive a
quantity negative is rejected with `false` and leaves the table exactly
unchanged (never clamped, nothing applied). -/
theorem claim_C2 (t : InventoryTable) (ops : List StockOp)
    (hops : ∀ op ∈ ops, 0 ≤ op.qty) (ht : nonneg t) :
    (∀ n, nonneg (runOps t (ops.take n))) ∧
    (∀ t' p q a, keysNodup t' → getInventory t' p = some a → a < q →
      reserveStock t' p q = (t', false)) :=
  ⟨nonneg_runOps t ops hops ht,
   fun t' p q a hnd ha hlt => reserveStock_insufficient t' p q a hnd ha hlt⟩

/-- Witness for C2 on a concrete two-product table and a three-operation run. -/
theorem claim_C2_witness :
    (∀ op ∈ [StockOp.reserve "P1" 3, StockOp.release "P1" 3, StockOp.reserve "P2" 1],
      0 ≤ op.qty) ∧
    nonneg [("P1", (5 : Int)), ("P2", 0)] ∧
    nonneg (runOps [("P1", (5 : Int)), ("P2", 0)]
      ([StockOp.reserve "P1" 3, StockOp.release "P1" 3, StockOp.reserve "P2" 1].take 3)) := by
  refine ⟨by decide, by unfold nonneg; decide, ?_⟩
  exact (claim_C2 [("P1", (5 : Int)), ("P2", 0)]
    [StockOp.reserve "P1" 3, StockOp.release "P1" 3, StockOp.reserve "P2" 1]
    (by decide) (by unfold nonneg; decide)).1 3

/-- C3 counterexample: at the state `P1 ↦ 5` with quantity 7, the reserve
fails yet the release still adds 7, so reserve-then-release does not restore
the prior quantity (it yields 12, not 5). -/
theorem claim_C3_counterexample :
    getInventory (releaseStock (reserveStock [("P1", (5 : Int))] "P1" 7).1 "P1" 7) "P1" ≠
      getInventory [("P1", (5 : Int))] "P1" := by
  decide

/-- C3 amended: provided the reserve succeeds (returns true), releasing the
same quantity afterwards restores the pre-reservation quantity exactly. -/
theorem claim_C3_amended (t : InventoryTable) (p : String) (q a : Int)
    (hnd : keysNodup t) (ha : getInventory t p = some a)
    (hs : (reserveStock t p q).2 = true) :
    getInventory (releaseStock (reserveStock t p q).1 p q) p = some a := by
  have hqa : q ≤ a := by
    by_contra hlt
    push_neg at hlt
    rw [reserveStock_insufficient t p q a hnd ha hlt] at hs
    simp at hs
  have h1 := getInventory_reserveStock t p q a ha
  rw [if_pos hqa] at h1
  have h2 := getInventory_releaseStock (reserveStock t p q).1 p q (a - q) h1
  simpa using h2

/-- Witness for the amended C3 at the state `P1 ↦ 5` with quantity 3. -/
theorem claim_C3_witness :
    keysNodup [("P1", (5 : Int))] ∧
    getInventory [("P1", (5 : Int))] "P1" = some 5 ∧
    (reserveStock [("P1", (5 : Int))] "P1" 3).2 = true ∧
    getInventory (releaseStock (reserveStock [("P1", (5 : Int))] "P1" 3).1 "P1" 3) "P1"
      = some 5 := by
  refine ⟨by unfold keysNodup; decide, by decide, by decide, ?_⟩
  exact claim_C3_amended [("P1", (5 : Int))] "P1" 3 5 (by unfold keysNodup; decide) (by decide) (by decide)

/-- C9: `releaseStock` unconditionally increments the recorded quantity of
the product by exactly the released amount. -/
theorem claim_C9 (t : InventoryTable) (p : String) (q a : Int)
    (hq : 0 ≤ q) (ha : getInventory t p = some a) :
    getInventory (releaseStock t p q) p = some (a + q) :=
  getInventory_releaseStock t p q a ha

/-- Witness for C9: releasing 3 onto a recorded quantity of 2 yields 5. -/
theorem claim_C9_witness :
    (0 : Int) ≤ 3 ∧
    getInventory [("P1", (2 : Int))] "P1" = some 2 ∧
    getInventory (releaseStock [("P1", (2 : Int))] "P1" 3) "P1" = some 5 := by
  refine ⟨by decide, by decide, ?_⟩
  exact claim_C9 [("P1", (2 : Int))] "P1" 3 2 (by decide) (by decide)

/-- C10: for a product with no inventory row, `reserveStock` returns false
for every requested quantity and leaves the table unchanged — the same
observable outcome as insufficient stock — while `getInventory` returns
`none` (not-found). -/
theorem claim_C10 (t : InventoryTable) (p : String)
    (h : getInventory t p = none) :
    (∀ q, reserveStock t p q = (t, false)) ∧ getInventory t p = none :=
  ⟨fun q => reserveStock_missing t p q h, h⟩

/-- Witness for C10: product `P1` absent from a table holding only `P2`. -/
theorem claim_C10_witness :
    getInventory [("P2", (5 : Int))] "P1" = none ∧
    reserveStock [("P2", (5 : Int))] "P1" 3 = ([("P2", (5 : Int))], false) := by
  refine ⟨by decide, ?_⟩
  exact (claim_C10 [("P2", (5 : Int))] "P1" (by decide)).1 3

/-! ## Checkout session store, idempotency gate, orders (transactions.ts) -/

/-- Embeds the SQL upsert `INSERT ... VALUES ... ON CONFLICT(<key>) DO UPDATE`
on a table keyed by a `TEXT PRIMARY KEY`: when a row with the key exists it
is replaced, otherwise the new row is appended. -/
def upsertRow {α : Type} (key : α → String) (t : List α) (k : String) (row : α) : List α :=
  if t.any (fun r => key r == k) then t.map (fun r => if key r == k then row else r)
  else t ++ [row]

/-- Replacing every row matched by `pred` with a row that itself matches
`pred` makes `find?` return that row, provided some row matched. -/
theorem find?_map_if {α : Type} (pred : α → Bool) (t : List α) (row : α)
    (hrow : pred row = true) (hany : t.any pred = true) :
    (t.map (fun r => if pred r then row else r)).find? pred = some row := by
  induction t with
  | nil => simp at hany
  | cons hd tl ih =>
    cases hhd : pred hd with
    | true =>
      simp only [List.map_cons, if_pos hhd]
      rw [List.find?_cons_of_pos _ hrow]
    | false =>
      simp only [List.map_cons, hhd, Bool.false_eq_true, if_false]
      rw [List.find?_cons_of_neg _ (by simp [hhd])]
      apply ih
      simpa [hhd] using hany

/-- Appending a row that matches `pred` to a list in which no row matches
makes `find?` return the appended row. -/
theorem find?_append_single {α : Type} (pred : α → Bool) (t : List α) (row : α)
    (hrow : pred row = true) (hall : t.find? pred = none) :
    (t ++ [row]).find? pred = some row := by
  rw [List.find?_append, hall, Option.none_or]
  exact List.find?_cons_of_pos _ hrow

/-- Appending a row that fails `pred` leaves `find?` unchanged. -/
theorem find?_append_single_ne {α : Type} (pred : α → Bool) (t : List α) (row : α)
    (hrow : pred row = false) :
    (t ++ [row]).find? pred = t.find? pred := by
  rw [List.find?_append]
  cases h : t.find? pred with
  | some r => rfl
  | none =>
    rw [Option.none_or, List.find?_cons_of_neg _ (by simp [hrow])]
    rfl

/-- Replacing every row matched by `pred` with a row that fails `pred'`
leaves `find?` under `pred'` unchanged, when no row can match both. -/
theorem find?_map_if_ne {α : Type} (pred pred' : α → Bool) (t : List α) (row : α)
    (hrow : pred' row = false) (hdisj : ∀ r, pred' r = true → pred r = false) :
    (t.map (fun r => if pred r then row else r)).find? pred' = t.find? pred' := by
  induction t with
  | nil => rfl
  | cons hd tl ih =>
    simp only [List.map_cons]
    cases hpd : pred hd with
    | true =>
      have h' : pred' hd = false := by
        cases h2 : pred' hd with
        | false => rfl
        | true => rw [hdisj hd h2] at hpd; cases hpd
      rw [if_pos rfl, List.find?_cons_of_neg _ (by simp [hrow]),
        List.find?_cons_of_neg _ (by simp [h']), ih]
    | false =>
      rw [if_neg (by simp)]
      cases h2 : pred' hd with
      | true => rw [List.find?_cons_of_pos _ h2, List.find?_cons_of_pos _ h2]
      | false =>
        rw [List.find?_cons_of_neg _ (by simp [h2]),
          List.find?_cons_of_neg _ (by simp [h2]), ih]

/-- `find?` after an upsert of a row bearing the looked-up key returns
exactly the upserted row. -/
theorem find?_upsertRow {α : Type} (key : α → String) (t : List α) (k : String) (row : α)
    (hrow : key row = k) :
    (upsertRow key t k row).find? (fun r => key r == k) = some row := by
  have hrowb : ((fun r => key r == k) row) = true := by simp [hrow]
  unfold upsertRow
  cases hany : t.any (fun r => key r == k) with
  | true =>
    rw [if_pos rfl]
    exact find?_map_if _ t row hrowb hany
  | false =>
    rw [if_neg (by simp)]
    refine find?_append_single _ t row hrowb ?_
    rw [List.find?_eq_none]
    exact List.any_eq_false.mp hany

/-- An upsert under one key leaves `find?` under a different key unchanged. -/
theorem find?_upsertRow_ne {α : Type} (key : α → String) (t : List α) (k k' : String)
    (row : α) (hrow : key row = k) (hne : k' ≠ k) :
    (upsertRow key t k row).find? (fun r => key r == k') =
      t.find? (fun r => key r == k') := by
  have hrow' : ((fun r => key r == k') row) = false := by
    simp [hrow]
    exact fun h2 => absurd h2.symm hne
  unfold upsertRow
  cases hany : t.any (fun r => key r == k) with
  | true =>
    rw [if_pos rfl]
    refine find?_map_if_ne _ _ t row hrow' ?_
    intro r hr
    simp only [decide_eq_true_eq] at hr ⊢
    have hk : key r = k' := by simpa using hr
    simp [hk]
    exact fun h2 => absurd h2 hne
  | false =>
    rw [if_neg (by simp)]
    exact find?_append_single_ne _ t row hrow'

/-- A row of the `checkouts` table: `id TEXT PRIMARY KEY`, `status TEXT`,
`data TEXT` (the JSON-serialized checkout object). -/
structure CheckoutRow where
  id : String
  status : String
  data : String
deriving DecidableEq

/-- The `checkouts` table. -/
abbrev CheckoutsTable := List CheckoutRow

/-- Embeds `saveCheckout` (transactions.ts): serializes the checkout object
with `JSON.stringify` and upserts `(id, status, data)` into `checkouts`,
replacing both `status` and `data` on conflict. -/
def saveCheckout {α : Type} (stringify : α → String)
    (t : CheckoutsTable) (checkoutId status : String) (checkoutObj : α) : CheckoutsTable :=
  upsertRow CheckoutRow.id t checkoutId ⟨checkoutId, status, stringify checkoutObj⟩

/-- Embeds `getCheckoutSession` (transactions.ts): selects the `data` column
of the row with the given id and parses it with `JSON.parse`; a missing row
or a parse failure (the `catch` branch) yields `none`. -/
def getCheckoutSession {α : Type} (parse : String → Option α)
    (t : CheckoutsTable) (checkoutId : String) : Option α :=
  match t.find? (fun r => r.id == checkoutId) with
  | some r => parse r.data
  | none => none

/-- A row of the `idempotency_keys` table: `key TEXT PRIMARY KEY`,
`request_hash TEXT`, `response_status INTEGER`, `response_body TEXT`. -/
structure IdempotencyRecord where
  key : String
  request_hash : String
  response_status : Int
  response_body : String
deriving DecidableEq

/-- The `idempotency_keys` table. -/
abbrev IdempotencyTable := List IdempotencyRecord

/-- Embeds `saveIdempotencyRecord` (transactions.ts): upsert replacing hash,
status and body on key conflict. -/
def saveIdempotencyRecord (t : IdempotencyTable) (key requestHash : String)
    (status : Int) (responseBody : String) : IdempotencyTable :=
  upsertRow IdempotencyRecord.key t key ⟨key, requestHash, status, responseBody⟩

/-- Embeds `getIdempotencyRecord` (transactions.ts): selects the row with the
given key and returns its four columns, or `none` when no row matches. -/
def getIdempotencyRecord (t : IdempotencyTable) (key : String) : Option IdempotencyRecord :=
  t.find? (fun r => r.key == key)

/-- C4: a `saveCheckout` followed by `getCheckoutSession` on the same id
returns exactly the payload supplied to the most recent save (the upsert
replaces the full payload), and a lookup of an id with no row — in
particular an id never saved — returns `none`; saves under other ids do not
affect it. -/
theorem claim_C4 {α : Type} (stringify : α → String) (parse : String → Option α)
    (hround : ∀ x, parse (stringify x) = some x)
    (t : CheckoutsTable) (checkoutId status status' : String) (obj obj' : α)
    (freshId : String) :
    getCheckoutSession parse (saveCheckout stringify t checkoutId status obj) checkoutId
      = some obj ∧
    getCheckoutSession parse
      (saveCheckout stringify (saveCheckout stringify t checkoutId status' obj')
        checkoutId status obj) checkoutId = some obj ∧
    (t.find? (fun r => r.id == freshId) = none → getCheckoutSession parse t freshId = none) ∧
    (freshId ≠ checkoutId →
      getCheckoutSession parse (saveCheckout stringify t checkoutId status obj) freshId
        = getCheckoutSession parse t freshId) := by
  have hmain : ∀ t' : CheckoutsTable,
      getCheckoutSession parse (saveCheckout stringify t' checkoutId status obj) checkoutId
        = some obj := by
    intro t'
    unfold getCheckoutSession saveCheckout
    rw [find?_upsertRow CheckoutRow.id t' checkoutId _ rfl]
    exact hround obj
  refine ⟨hmain t, hmain _, ?_, ?_⟩
  · intro hnone
    unfold getCheckoutSession
    rw [hnone]
  · intro hne
    unfold getCheckoutSession saveCheckout
    rw [find?_upsertRow_ne CheckoutRow.id t checkoutId freshId _ rfl hne]

/-- A serialization of `Bool` used to instantiate C4's witness. -/
def boolStringify (b : Bool) : String := cond b "t" "f"

/-- The matching parser for `boolStringify`. -/
def boolParse (s : String) : Option Bool :=
  if s = "t" then some true else if s = "f" then some false else none

/-- Witness for C4 with a `Bool` payload on the empty table. -/
theorem claim_C4_witness :
    (∀ x : Bool, boolParse (boolStringify x) = some x) ∧
    getCheckoutSession boolParse
      (saveCheckout boolStringify [] "C1" "in_progress" true) "C1" = some true := by
  refine ⟨by decide, ?_⟩
  exact (claim_C4 boolStringify boolParse (by decide) [] "C1" "in_progress" "x"
    true false "F").1

/-- C5: after `saveIdempotencyRecord`, `getIdempotencyRecord` on the same key
returns exactly the stored hash, status and body, and a second save under the
same key overwrites the first, so lookups return the most recent values. -/
theorem claim_C5 (t : IdempotencyTable) (k hsh : String) (s : Int) (b : String)
    (hsh' : String) (s' : Int) (b' : String) :
    getIdempotencyRecord (saveIdempotencyRecord t k hsh s b) k = some ⟨k, hsh, s, b⟩ ∧
    getIdempotencyRecord
      (saveIdempotencyRecord (saveIdempotencyRecord t k hsh' s' b') k hsh s b) k
      = some ⟨k, hsh, s, b⟩ := by
  constructor
  · unfold getIdempotencyRecord saveIdempotencyRecord
    exact find?_upsertRow IdempotencyRecord.key t k _ rfl
  · unfold getIdempotencyRecord saveIdempotencyRecord
    exact find?_upsertRow IdempotencyRecord.key _ k _ rfl

/-! ## Orders and the order service (transactions.ts, api/order.ts) -/

/-- Modelled from the spec: the repository's `src/models` module, which
declares the `Order` interface, is not among the provided sources.  Per the
spec an order carries an identifier, an optional associated checkout
identifier (read by `updateOrder`'s audit call), a `status` — the example
post-purchase field — and an opaque frozen payload snapshot. -/
structure Order where
  id : String
  checkout_id : Option String
  status : String
  payload : String
deriving DecidableEq

/-- The `orders` table: `id TEXT PRIMARY KEY`, `data TEXT`. -/
abbrev OrdersTable := List (String × String)

/-- Embeds `saveOrder` (transactions.ts): upsert of `(id, data)` with
`data = JSON.stringify(orderObj)`, replacing `data` on conflict. -/
def saveOrder (stringify : Order → String) (t : OrdersTable) (orderId : String)
    (orderObj : Order) : OrdersTable :=
  upsertRow Prod.fst t orderId (orderId, stringify orderObj)

/-- Embeds the data-layer `getOrder` (transactions.ts): selects `data` by id
and parses it with `JSON.parse`; a missing row or a parse failure (the
`catch` branch) yields `none`. -/
def getOrder (parse : String → Option Order) (t : OrdersTable) (orderId : String) :
    Option Order :=
  match t.find? (fun r => r.1 == orderId) with
  | some r => parse r.2
  | none => none

/-- A row of the `request_logs` table (`logRequest` in transactions.ts):
method, url, optional checkout id, and the JSON-serialized payload. -/
structure LogEntry where
  method : String
  url : String
  checkout_id : Option String
  payload : String
deriving DecidableEq

/-- Embeds `logRequest` (transactions.ts): appends one row to the append-only
`request_logs` table. -/
def logRequest (logs : List LogEntry) (method url : String)
    (checkoutId : Option String) (payload : String) : List LogEntry :=
  logs ++ [⟨method, url, checkoutId, payload⟩]

/-- The transactions-store state the order endpoints touch: the `orders`
table and the `request_logs` table. -/
structure AppState where
  orders : OrdersTable
  logs : List LogEntry
deriving DecidableEq

/-- The HTTP outcome of `OrderService.getOrder`: 404 or 200 with the order. -/
inductive GetResult where
  | notFound
  | found (body : Order)
deriving DecidableEq

/-- The HTTP outcome of `OrderService.updateOrder`: 404 or 200 with the body
echoed back. -/
inductive UpdateResult where
  | notFound
  | ok (body : Order)
deriving DecidableEq

/-- Embeds `OrderService.getOrder` (api/order.ts).  The handler first
`await`s `logRequest` with no `try`/`catch`, so a failing audit write (the
`auditFails` flag models whether the underlying database write rejects)
propagates and the handler yields an error instead of a response; on success
it looks up the order and returns 404 or 200. -/
def OrderService.getOrder (parse : String → Option Order) (auditFails : Bool)
    (st : AppState) (id : String) : Except String (AppState × GetResult) :=
  if auditFails then .error "audit log write failed"
  else
    let st1 : AppState :=
      { st with logs := logRequest st.logs "GET" ("/orders/" ++ id) none "\x7b\x7d" }
    match UCP.getOrder parse st1.orders id with
    | none => .ok (st1, .notFound)
    | some o => .ok (st1, .found o)

/-- Embeds `OrderService.updateOrder` (api/order.ts): logs the request
(`await`ed, no `try`/`catch`, so a failing audit write propagates), looks up
the existing order, returns 404 when it is absent, and otherwise forces the
request's `id` to the path id and upserts the full request payload via
`saveOrder`, echoing the request back with status 200. -/
def OrderService.updateOrder (stringify : Order → String)
    (parse : String → Option Order) (auditFails : Bool)
    (st : AppState) (id : String) (updateRequest : Order) :
    Except String (AppState × UpdateResult) :=
  if auditFails then .error "audit log write failed"
  else
    let st1 : AppState :=
      { st with logs := (logRequest st.logs "PUT" ("/orders/" ++ id)
          updateRequest.checkout_id (stringify updateRequest)) }
    match UCP.getOrder parse st1.orders id with
    | none => .ok (st1, .notFound)
    | some _ =>
      .ok ({ st1 with
              orders := saveOrder stringify st1.orders id { updateRequest with id := id } },
           .ok { updateRequest with id := id })

/-- C6: when no order row exists for the id, `updateOrder` (with the audit
write succeeding) returns the not-found outcome and leaves the orders table
exactly unchanged — no order is created or modified; only the audit log
grows. -/
theorem claim_C6 (stringify : Order → String) (parse : String → Option Order)
    (st : AppState) (id : String) (req : Order)
    (h : st.orders.find? (fun r => r.1 == id) = none) :
    OrderService.updateOrder stringify parse false st id req =
      .ok ({ st with logs := (logRequest st.logs "PUT" ("/orders/" ++ id)
                req.checkout_id (stringify req)) },
           .notFound) ∧
    ∀ st' res, OrderService.updateOrder stringify parse false st id req = .ok (st', res) →
      st'.orders = st.orders ∧ res = .notFound := by
  have hmain : OrderService.updateOrder stringify parse false st id req =
      .ok ({ st with logs := (logRequest st.logs "PUT" ("/orders/" ++ id)
                req.checkout_id (stringify req)) },
           .notFound) := by
    unfold OrderService.updateOrder
    rw [if_neg (by simp)]
    dsimp only
    unfold UCP.getOrder
    rw [h]
  refine ⟨hmain, ?_⟩
  intro st' res heq
  rw [hmain] at heq
  have hpair := Except.ok.inj heq
  rw [Prod.mk.injEq] at hpair
  obtain ⟨h1, h2⟩ := hpair
  constructor
  · rw [← h1]
  · rw [← h2]

/-- A concrete serialization of `Order` used by witnesses: the four fields
joined by `|`, an absent checkout id rendered as `-`. -/
def encOrder (o : Order) : String :=
  o.id ++ "|" ++ (match o.checkout_id with | some c => c | none => "-") ++ "|" ++
    o.status ++ "|" ++ o.payload

/-- The order stored before the C7 update. -/
def ordA : Order := ⟨"O1", some "C1", "confirmed", "snapA"⟩

/-- An update request identical to `ordA` except in the frozen payload. -/
def reqB : Order := ⟨"O1", some "C1", "confirmed", "snapB"⟩

/-- A concrete stand-in for `JSON.parse` inverting `encOrder` on the orders
the witnesses use (a finite lookup table; `JSON.parse` itself is external to
the core). -/
def decOrder (s : String) : Option Order :=
  if s = encOrder ordA then some ordA
  else if s = encOrder reqB then some reqB
  else none

/-- Witness for C6: updating order `O1` against an empty orders table. -/
theorem claim_C6_witness :
    ([] : OrdersTable).find? (fun r => r.1 == "O1") = none ∧
    OrderService.updateOrder encOrder decOrder false ⟨[], []⟩ "O1"
        ⟨"O1", some "C1", "shipped", "snap"⟩ =
      .ok (⟨[], [⟨"PUT", "/orders/O1", some "C1",
              encOrder ⟨"O1", some "C1", "shipped", "snap"⟩⟩]⟩,
           .notFound) := by
  refine ⟨rfl, ?_⟩
  exact (claim_C6 encOrder decOrder ⟨[], []⟩ "O1" ⟨"O1", some "C1", "shipped", "snap"⟩
    rfl).1

/-- A store holding exactly `ordA` under id `O1`, with an empty audit log. -/
def stO : AppState := ⟨[("O1", encOrder ordA)], []⟩

/-- C7 counterexample: `updateOrder` succeeds on the existing order `O1` yet
changes the frozen `payload` field from `snapA` to `snapB` while `status` is
untouched — a field outside the post-purchase set does not remain unchanged
after the update. -/
theorem claim_C7_counterexample :
    getOrder decOrder stO.orders "O1" = some ordA ∧
    (OrderService.updateOrder encOrder decOrder false stO "O1" reqB).toOption.map
      (fun r => getOrder decOrder r.1.orders "O1") = some (some reqB) ∧
    ordA.status = reqB.status ∧
    ordA.payload ≠ reqB.payload := by
  refine ⟨by decide, by decide, rfl, by decide⟩

/-- C7 amended: for an id whose row exists and parses, a successful
`updateOrder` replaces the stored order wholesale — it upserts the full
request payload with only the `id` field forced to the path id — so fields
other than `status` (for example the frozen payload snapshot) are taken from
the request, not preserved from the stored order. -/
theorem claim_C7_amended (stringify : Order → String) (parse : String → Option Order)
    (st : AppState) (id d : String) (old req : Order)
    (hfind : st.orders.find? (fun r => r.1 == id) = some (id, d))
    (hparse : parse d = some old) :
    OrderService.updateOrder stringify parse false st id req =
      .ok ({ orders := saveOrder stringify st.orders id { req with id := id },
             logs := (logRequest st.logs "PUT" ("/orders/" ++ id) req.checkout_id
               (stringify req)) },
           .ok { req with id := id }) ∧
    getOrder parse (saveOrder stringify st.orders id { req with id := id }) id
      = parse (stringify { req with id := id }) := by
  constructor
  · unfold OrderService.updateOrder
    rw [if_neg (by simp)]
    dsimp only
    unfold UCP.getOrder
    rw [hfind]
    dsimp only
    rw [hparse]
  · unfold UCP.getOrder saveOrder
    rw [find?_upsertRow Prod.fst st.orders id _ rfl]

/-- Witness for the amended C7 at the concrete store `stO`. -/
theorem claim_C7_witness :
    stO.orders.find? (fun r => r.1 == "O1") = some ("O1", encOrder ordA) ∧
    decOrder (encOrder ordA) = some ordA ∧
    getOrder decOrder (saveOrder encOrder stO.orders "O1" { reqB with id := "O1" }) "O1"
      = decOrder (encOrder { reqB with id := "O1" }) := by
  refine ⟨by decide, by decide, ?_⟩
  exact (claim_C7_amended encOrder decOrder stO "O1" (encOrder ordA) ordA reqB
    (by decide) (by decide)).2

/-- C8 (code bug): the audit write in `OrderService.getOrder` is `await`ed
with no `try`/`catch`, so when the audit write fails the handler fails too,
instead of completing with the response it returns when the audit write
succeeds — evaluated at the concrete store holding order `O1`. -/
theorem claim_C8_bug :
    (OrderService.getOrder decOrder true stO "O1").toOption = none ∧
    (OrderService.getOrder decOrder false stO "O1").toOption =
      some (⟨stO.orders, [⟨"GET", "/orders/O1", none, "\x7b\x7d"⟩]⟩, .found ordA) := by
  refine ⟨by decide, by decide⟩

end UCP
